import Mathlib

/-!
Verification of the tool-interception hooks:
  src/advanced/hooks/pre_tool_use.py  (Pre-Invocation Guard + pre-stage Audit Recorder)
  src/advanced/hooks/post_tool_use.py (Post-Invocation Logger + post-stage Audit Recorder)

The Python code is shallowly embedded below: strings become `String`/`List Char`,
the Python `re` patterns used by the hooks become a small regular-expression
datatype with a Brzozowski-derivative matcher, the per-session JSON log files
become an explicit file-system map `Stage → sessionId → FileContent`, and each
hook's `main` becomes a pure function from a parsed input payload and a
file-system state to an exit code and a new file-system state.
-/

/-! ### Character classes

`isPySpace` models Python's whitespace (for `str.split()` and the regex class
`\s`) restricted to the ASCII whitespace characters; hook commands are ASCII.
`isWordChar` models the regex word-character class `\w` used by `\b`,
restricted to ASCII. -/

def isPySpace (c : Char) : Bool :=
  c == ' ' || c == '\t' || c == '\n' || c == '\r' || c == '\x0b' || c == '\x0c'

def isWordChar (c : Char) : Bool :=
  c.isAlphanum || c == '_'

/-! ### Substring containment

`listLeads n h` : the list `n` is an initial segment of `h`.
`subList n h`   : `n` occurs contiguously somewhere inside `h`.
`strContains s pat` models Python's `pat in s` on strings. -/

def listLeads : List Char → List Char → Bool
  | [], _ => true
  | _ :: _, [] => false
  | a :: as, b :: bs => a == b && listLeads as bs

def subList (n : List Char) : List Char → Bool
  | [] => listLeads n []
  | c :: cs => listLeads n (c :: cs) || subList n cs

def strContains (s pat : String) : Bool :=
  subList pat.data s.data

/-! ### Whitespace normalization

`pre_tool_use.py` line 33: `cmd = " ".join(command.split())`.
`pySplitAux` is Python's `str.split()` (split on runs of whitespace, dropping
empty fields); `joinSp` is `" ".join`. -/

def pySplitAux : List Char → List Char → List (List Char)
  | [], acc => if acc.isEmpty then [] else [acc.reverse]
  | c :: cs, acc =>
    if isPySpace c then
      if acc.isEmpty then pySplitAux cs [] else acc.reverse :: pySplitAux cs []
    else
      pySplitAux cs (c :: acc)

def joinSp : List (List Char) → List Char
  | [] => []
  | [w] => w
  | w :: ws => w ++ ' ' :: joinSp ws

def normalizeWs (l : List Char) : List Char :=
  joinSp (pySplitAux l [])

/-! ### Regular expressions

A small regex datatype covering the constructs appearing in the hook's
patterns, with Brzozowski-derivative matching.  `cls` is a character class
given by a decidable predicate; `re.search` semantics (match anywhere, any
length) are provided by `reSearch`, and `searchWB` additionally implements a
leading `\b` for patterns whose first character is a word character (all the
`rm` patterns start with the literal `rm`). -/

inductive Regex where
  | emp : Regex
  | eps : Regex
  | cls : (Char → Bool) → Regex
  | cat : Regex → Regex → Regex
  | alt : Regex → Regex → Regex
  | star : Regex → Regex

def nullable : Regex → Bool
  | .emp => false
  | .eps => true
  | .cls _ => false
  | .cat r s => nullable r && nullable s
  | .alt r s => nullable r || nullable s
  | .star _ => true

def rderiv : Regex → Char → Regex
  | .emp, _ => .emp
  | .eps, _ => .emp
  | .cls p, c => if p c then .eps else .emp
  | .cat r s, c =>
    if nullable r then .alt (.cat (rderiv r c) s) (rderiv s c)
    else .cat (rderiv r c) s
  | .alt r s, c => .alt (rderiv r c) (rderiv s c)
  | .star r, c => .cat (rderiv r c) (.star r)

/-- `matchPre r l` : `r` matches some initial segment of `l`. -/
def matchPre : Regex → List Char → Bool
  | r, [] => nullable r
  | r, c :: cs => nullable r || matchPre (rderiv r c) cs

/-- `re.search` with no anchors: `r` matches somewhere inside `l`. -/
def reSearch : Regex → List Char → Bool
  | r, [] => nullable r
  | r, c :: cs => matchPre r (c :: cs) || reSearch r cs

/-- Auxiliary for `searchWB`: `atB` records whether the current position is
preceded by start-of-string or a non-word character. -/
def searchWBAux : Regex → Bool → List Char → Bool
  | r, atB, [] => atB && nullable r
  | r, atB, c :: cs => (atB && matchPre r (c :: cs)) || searchWBAux r (!isWordChar c) cs

/-- `re.search` for a pattern of the form `\b<r>` where `<r>` begins with a
word character: a match may start only at the beginning of the string or right
after a non-word character. -/
def searchWB (r : Regex) (l : List Char) : Bool :=
  searchWBAux r true l

def chr (c : Char) : Regex := .cls (fun x => x == c)

def lit (s : String) : Regex :=
  s.data.foldr (fun c r => .cat (chr c) r) .eps

/-- `\s` -/
def wsCls : Regex := .cls isPySpace

/-- `\s+` applied to a regex `r`: one or more. -/
def rplus (r : Regex) : Regex := .cat r (.star r)

/-- `[a-zA-Z]` -/
def alphaCls : Regex := .cls Char.isAlpha

/-- `.` (any character except newline; `re.DOTALL` is not set) -/
def dotCls : Regex := .cls (fun c => !(c == '\n'))

/-! ### The guard's patterns (`pre_tool_use.py` lines 36-41, 46, 52, 83-89) -/

/-- `-[a-zA-Z]*r[a-zA-Z]*f[a-zA-Z]*` -/
def flag_rf : Regex :=
  .cat (chr '-') (.cat (.star alphaCls) (.cat (chr 'r')
    (.cat (.star alphaCls) (.cat (chr 'f') (.star alphaCls)))))

/-- `-[a-zA-Z]*f[a-zA-Z]*r[a-zA-Z]*` -/
def flag_fr : Regex :=
  .cat (chr '-') (.cat (.star alphaCls) (.cat (chr 'f')
    (.cat (.star alphaCls) (.cat (chr 'r') (.star alphaCls)))))

/-- `\brm\s+(-[a-zA-Z]*r[a-zA-Z]*f[a-zA-Z]*|--recursive\s+--force)` (minus the leading `\b`) -/
def rm_pat1 : Regex :=
  .cat (lit "rm") (.cat (rplus wsCls)
    (.alt flag_rf (.cat (lit "--recursive") (.cat (rplus wsCls) (lit "--force")))))

/-- `\brm\s+(-[a-zA-Z]*f[a-zA-Z]*r[a-zA-Z]*|--force\s+--recursive)` (minus the leading `\b`) -/
def rm_pat2 : Regex :=
  .cat (lit "rm") (.cat (rplus wsCls)
    (.alt flag_fr (.cat (lit "--force") (.cat (rplus wsCls) (lit "--recursive")))))

/-- `[rR]` -/
def rRCls : Regex := .cls (fun c => c == 'r' || c == 'R')

/-- `\brm\s+-[rR]f` (minus the leading `\b`) -/
def rm_pat3 : Regex :=
  .cat (lit "rm") (.cat (rplus wsCls) (.cat (chr '-') (.cat rRCls (chr 'f'))))

/-- `\brm\s+-f[rR]` (minus the leading `\b`) -/
def rm_pat4 : Regex :=
  .cat (lit "rm") (.cat (rplus wsCls) (.cat (chr '-') (.cat (chr 'f') rRCls)))

def rm_patterns : List Regex := [rm_pat1, rm_pat2, rm_pat3, rm_pat4]

/-- `[~/.]` -/
def tsdCls : Regex := .cls (fun c => c == '~' || c == '/' || c == '.')

/-- `\brm\s+-[rR]f\s+[~/.]` (minus the leading `\b`), `pre_tool_use.py` line 52. -/
def rm_pat_target : Regex :=
  .cat (lit "rm") (.cat (rplus wsCls)
    (.cat (chr '-') (.cat rRCls (.cat (chr 'f') (.cat (rplus wsCls) tsdCls)))))

/-- `pre_tool_use.py` line 46. -/
def dangerous_paths : List String := ["/", "/*", "~", "$HOME", "..", "*", "."]

/-- The five `env_patterns` of `pre_tool_use.py` lines 83-89:
`cat\s+\.env`, `echo\s+.*>\s*\.env`, `touch\s+\.env`, `cp\s+.*\.env`,
`mv\s+.*\.env`. -/
def env_patterns : List Regex :=
  [ .cat (lit "cat") (.cat (rplus wsCls) (lit ".env")),
    .cat (lit "echo") (.cat (rplus wsCls)
      (.cat (.star dotCls) (.cat (chr '>') (.cat (.star wsCls) (lit ".env"))))),
    .cat (lit "touch") (.cat (rplus wsCls) (lit ".env")),
    .cat (lit "cp") (.cat (rplus wsCls) (.cat (.star dotCls) (lit ".env"))),
    .cat (lit "mv") (.cat (rplus wsCls) (.cat (.star dotCls) (lit ".env"))) ]

/-! ### The two rule predicates (`pre_tool_use.py` lines 22-94) -/

/-- `is_dangerous_rm_command` (`pre_tool_use.py` lines 22-55).
The Python loop `for pattern: if search(pattern, cmd): for path: if path in
cmd: return True` is equivalent to the conjunction of the two existential
checks, because the inner path check does not depend on which pattern
matched. -/
def is_dangerous_rm_command (command : String) : Bool :=
  let cmd := normalizeWs command.data
  ((rm_patterns.any fun p => searchWB p cmd) &&
    (dangerous_paths.any fun t => subList t.data cmd)) ||
  searchWB rm_pat_target cmd

/-- `is_env_file_access` (`pre_tool_use.py` lines 58-94).  `file_path` and
`command` are `data.get("file_path", "")` and `data.get("command", "")`;
Python's truthiness test `if file_path` is the non-emptiness test. -/
def is_env_file_access (tool_name file_path command : String) : Bool :=
  if !(["Read", "Edit", "MultiEdit", "Write", "Bash"].contains tool_name) then false
  else if (!file_path.data.isEmpty) && strContains file_path ".env" then
    if strContains file_path ".env.sample" || strContains file_path ".env.example" then false
    else true
  else if tool_name == "Bash" then
    if strContains command ".env" then
      if strContains command ".env.sample" || strContains command ".env.example" then false
      else env_patterns.any fun p => reSearch p command.data
    else false
  else false

/-! ### Invocation records and the guard's decision (`pre_tool_use.py` main) -/

/-- A parsed input payload with the hook's defaults applied:
`sessionId = data.get("sessionId", "unknown")`, `tool = data.get("tool", "")`,
`file_path = data.get("file_path", "")`, `command = data.get("command", "")`.
Field values are strings, as in the spec's data model. -/
structure InvocationRecord where
  sessionId : String
  tool : String
  file_path : String
  command : String
deriving DecidableEq

inductive Decision where
  | allow : Decision
  | block : List String → Decision
deriving DecidableEq

def Decision.isBlocked : Decision → Bool
  | .allow => false
  | .block _ => true

/-- The stderr lines printed when the `.env` rule fires (`pre_tool_use.py` lines 141-142). -/
def env_block_msg : List String :=
  ["❌ Error: Access to .env files is blocked for security.",
   "Use .env.sample for templates."]

/-- The stderr lines printed when the rm rule fires (`pre_tool_use.py` lines 149-151). -/
def rm_block_msg (command : String) : List String :=
  ["❌ Error: Dangerous rm command blocked.",
   "Command: " ++ command,
   "This could delete important system files."]

/-- The guard's decision logic: the rule checks of `main`
(`pre_tool_use.py` lines 139-155) after the audit log write. -/
def evaluate (d : InvocationRecord) : Decision :=
  if is_env_file_access d.tool d.file_path d.command then .block env_block_msg
  else if d.tool == "Bash" && is_dangerous_rm_command d.command then
    .block (rm_block_msg d.command)
  else .allow

/-! ### The audit log files -/

/-- The recoverable contents of one per-session log file:
absent, a JSON array of records, or content on which the hooks'
`except (json.JSONDecodeError, IOError)` clause fires (a JSON syntax error
or an unreadable file).  An existing file holding valid JSON that is NOT an
array (e.g. `{}`) is a different, non-recoverable case — `json.load`
succeeds, the except clause does not fire, and the subsequent
`logs.append(data)` raises an uncaught `AttributeError`; that case is
represented by `FileContentFull` below. -/
inductive FileContent where
  | absent : FileContent
  | valid : List InvocationRecord → FileContent
  | corrupt : FileContent
deriving DecidableEq

/-- Loading the existing logs (`pre_tool_use.py` lines 106-112,
`post_tool_use.py` lines 29-35) on the recoverable contents: `logs = []`,
then `json.load` if the file exists, falling back to `[]` on
`JSONDecodeError`/`IOError`.  The crash on valid non-array JSON is modelled
by `loadLogsFull` below. -/
def loadLogs : FileContent → List InvocationRecord
  | .absent => []
  | .valid rs => rs
  | .corrupt => []

/-- One append cycle of the Audit Recorder: load the existing sequence,
append the new record, rewrite the whole file
(`pre_tool_use.py` lines 106-122, `post_tool_use.py` lines 29-46). -/
def appendLog (fc : FileContent) (d : InvocationRecord) : FileContent :=
  .valid (loadLogs fc ++ [d])

inductive Stage where
  | pre : Stage
  | post : Stage
deriving DecidableEq

/-- The logs directory: one file per (stage, sessionId) pair
(`pre_tool_use_{sid}.json` / `post_tool_use_{sid}.json`). -/
def FS : Type := Stage → String → FileContent

def updFS (fs : FS) (st : Stage) (sid : String) (c : FileContent) : FS :=
  fun st2 sid2 => if st2 = st ∧ sid2 = sid then c else fs st2 sid2

def emptyFS : FS := fun _ _ => .absent

def corruptFS : FS := fun _ _ => .corrupt

/-- `log_tool_call` (`pre_tool_use.py` lines 97-122). -/
def log_tool_call (d : InvocationRecord) (fs : FS) : FS :=
  updFS fs .pre d.sessionId (appendLog (fs .pre d.sessionId) d)

/-- `log_tool_execution` (`post_tool_use.py` lines 20-46). -/
def log_tool_execution (d : InvocationRecord) (fs : FS) : FS :=
  updFS fs .post d.sessionId (appendLog (fs .post d.sessionId) d)

/-! ### The two hook entry points -/

/-- The input payload as seen after `json.load(sys.stdin)`:
`malformed` : not valid JSON (`json.JSONDecodeError`);
`nonObject` : valid JSON whose top-level value is not an object, so the very
first `data.get(...)` raises `AttributeError`, which no handler catches and
the interpreter exits with status 1 before touching any log file;
`parsed d`  : a JSON object, read into a record with the hook's defaults. -/
inductive HookInput where
  | malformed : HookInput
  | nonObject : HookInput
  | parsed : InvocationRecord → HookInput

structure PreResult where
  exitCode : Nat
  fs : FS
  err : List String

/-- `main` of `pre_tool_use.py` (lines 125-155): on a JSON object, log the
call, then block (exit 2, reason on stderr) if a rule fires, else exit 0;
on malformed input exit 0 immediately; on a non-object JSON value the
uncaught `AttributeError` at `data.get("tool", "")` terminates the process
with status 1 before `log_tool_call` runs. -/
def pre_tool_use_main (inp : HookInput) (fs : FS) : PreResult :=
  match inp with
  | .malformed => ⟨0, fs, []⟩
  | .nonObject => ⟨1, fs, []⟩
  | .parsed d =>
    let fs2 := log_tool_call d fs
    match evaluate d with
    | .allow => ⟨0, fs2, []⟩
    | .block msg => ⟨2, fs2, msg⟩

/-- `main` of `post_tool_use.py` (lines 49-62): on a JSON object, log the
execution and exit 0; on malformed input exit 0; on a non-object JSON value
the uncaught `AttributeError` at `data.get("sessionId", "unknown")`
terminates the process with status 1 before any write. -/
def post_tool_use_main (inp : HookInput) (fs : FS) : Nat × FS :=
  match inp with
  | .malformed => (0, fs)
  | .nonObject => (1, fs)
  | .parsed d => (0, log_tool_execution d fs)

/-! ### The full content model for an existing log file

The extra case `nonArray` is an existing file that holds valid JSON which is
not an array, e.g. `{}`.  On such a file `json.load` succeeds and returns a
non-list value, the `except (json.JSONDecodeError, IOError)` clause does not
fire, and `logs.append(data)` then raises `AttributeError`; nothing catches
it in either hook, so the interpreter exits with status 1 and the file is
not rewritten. -/

inductive FileContentFull where
  | absent : FileContentFull
  | valid : List InvocationRecord → FileContentFull
  | nonArray : FileContentFull
  | corrupt : FileContentFull
deriving DecidableEq

/-- The result of the load step on the full content model: `none` when the
loaded value is not a list, so that the subsequent `logs.append` raises an
uncaught `AttributeError`. -/
def loadLogsFull : FileContentFull → Option (List InvocationRecord)
  | .absent => some []
  | .valid rs => some rs
  | .nonArray => none
  | .corrupt => some []

/-- One append cycle of the Audit Recorder on the full content model
(`pre_tool_use.py` lines 106-122, `post_tool_use.py` lines 29-46): load the
existing sequence, append the new record, rewrite the whole file; `none`
models the uncaught `AttributeError` on a file that held valid non-array
JSON — nothing is written and the process dies with exit status 1. -/
def appendLogFull (fc : FileContentFull) (d : InvocationRecord) : Option FileContentFull :=
  (loadLogsFull fc).map fun rs => .valid (rs ++ [d])

def FSFull : Type := Stage → String → FileContentFull

def updFSFull (fs : FSFull) (st : Stage) (sid : String) (c : FileContentFull) : FSFull :=
  fun st2 sid2 => if st2 = st ∧ sid2 = sid then c else fs st2 sid2

def nonArrayFSFull : FSFull := fun _ _ => .nonArray

/-- `main` of `post_tool_use.py` on the full content model: when the
session's existing post-stage file holds valid non-array JSON, the append
cycle raises and the interpreter exits with status 1, leaving every file
untouched; on the recoverable contents it behaves like
`post_tool_use_main`. -/
def post_tool_use_main_full (inp : HookInput) (fs : FSFull) : Nat × FSFull :=
  match inp with
  | .malformed => (0, fs)
  | .nonObject => (1, fs)
  | .parsed d =>
    match appendLogFull (fs .post d.sessionId) d with
    | some fc => (0, updFSFull fs .post d.sessionId fc)
    | none => (1, fs)

/-! ### Language semantics of the regex matcher, and soundness

`RMatch r w` : the word `w` belongs to the language of `r`.  Only soundness
of the executable matcher is needed below (a successful search exhibits a
matched word inside the scanned string). -/

inductive RMatch : Regex → List Char → Prop where
  | eps : RMatch .eps []
  | cls {p : Char → Bool} {c : Char} : p c = true → RMatch (.cls p) [c]
  | catM {r s : Regex} {w1 w2 : List Char} :
      RMatch r w1 → RMatch s w2 → RMatch (.cat r s) (w1 ++ w2)
  | altL {r s : Regex} {w : List Char} : RMatch r w → RMatch (.alt r s) w
  | altR {r s : Regex} {w : List Char} : RMatch s w → RMatch (.alt r s) w
  | starNil {r : Regex} : RMatch (.star r) []
  | starApp {r : Regex} {w1 w2 : List Char} :
      RMatch r w1 → RMatch (.star r) w2 → RMatch (.star r) (w1 ++ w2)

theorem nullable_sound : ∀ r : Regex, nullable r = true → RMatch r []
  | .eps, _ => RMatch.eps
  | .cat r s, h => by
    simp only [nullable, Bool.and_eq_true] at h
    exact (List.nil_append ([] : List Char)) ▸
      RMatch.catM (nullable_sound r h.1) (nullable_sound s h.2)
  | .alt r s, h => by
    simp only [nullable, Bool.or_eq_true] at h
    rcases h with h | h
    · exact RMatch.altL (nullable_sound r h)
    · exact RMatch.altR (nullable_sound s h)
  | .star _, _ => RMatch.starNil

theorem rderiv_sound (c : Char) :
    ∀ r : Regex, ∀ w : List Char, RMatch (rderiv r c) w → RMatch r (c :: w) := by
  intro r
  induction r with
  | emp => intro w h; simp only [rderiv] at h; cases h
  | eps => intro w h; simp only [rderiv] at h; cases h
  | cls p =>
    intro w h
    simp only [rderiv] at h
    cases hp : p c with
    | true => rw [hp] at h; simp at h; cases h; exact RMatch.cls hp
    | false => rw [hp] at h; simp at h; cases h
  | cat r s ihr ihs =>
    intro w h
    simp only [rderiv] at h
    cases hn : nullable r with
    | true =>
      rw [hn] at h; simp at h
      cases h with
      | altL h1 =>
        cases h1 with
        | catM hw1 hw2 =>
          exact List.cons_append _ _ _ ▸ RMatch.catM (ihr _ hw1) hw2
      | altR h1 =>
        have hs := ihs _ h1
        have hr := nullable_sound r hn
        have := RMatch.catM hr hs
        rwa [List.nil_append] at this
    | false =>
      rw [hn] at h; simp at h
      cases h with
      | catM hw1 hw2 =>
        exact List.cons_append _ _ _ ▸ RMatch.catM (ihr _ hw1) hw2
  | alt r s ihr ihs =>
    intro w h
    simp only [rderiv] at h
    cases h with
    | altL h1 => exact RMatch.altL (ihr _ h1)
    | altR h1 => exact RMatch.altR (ihs _ h1)
  | star r ihr =>
    intro w h
    simp only [rderiv] at h
    cases h with
    | catM hw1 hw2 =>
      exact List.cons_append _ _ _ ▸ RMatch.starApp (ihr _ hw1) hw2

theorem matchPre_sound :
    ∀ (l : List Char) (r : Regex), matchPre r l = true →
      ∃ w t, l = w ++ t ∧ RMatch r w := by
  intro l
  induction l with
  | nil =>
    intro r h
    exact ⟨[], [], rfl, nullable_sound r h⟩
  | cons c cs ih =>
    intro r h
    simp only [matchPre, Bool.or_eq_true] at h
    rcases h with h | h
    · exact ⟨[], c :: cs, rfl, nullable_sound r h⟩
    · obtain ⟨w, t, hw, hm⟩ := ih (rderiv r c) h
      exact ⟨c :: w, t, by simp [hw], rderiv_sound c r w hm⟩

theorem searchWBAux_sound :
    ∀ (l : List Char) (r : Regex) (b : Bool), searchWBAux r b l = true →
      ∃ w, RMatch r w ∧ ∀ c ∈ w, c ∈ l := by
  intro l
  induction l with
  | nil =>
    intro r b h
    simp only [searchWBAux, Bool.and_eq_true] at h
    exact ⟨[], nullable_sound r h.2, by simp⟩
  | cons c cs ih =>
    intro r b h
    simp only [searchWBAux, Bool.or_eq_true, Bool.and_eq_true] at h
    rcases h with ⟨_, h⟩ | h
    · obtain ⟨w, t, hw, hm⟩ := matchPre_sound (c :: cs) r h
      refine ⟨w, hm, fun x hx => ?_⟩
      rw [hw]
      exact List.mem_append_left t hx
    · obtain ⟨w, hm, hsub⟩ := ih r (!isWordChar c) h
      exact ⟨w, hm, fun x hx => List.mem_cons_of_mem c (hsub x hx)⟩

/-- Every word of the language of `.cat r s` contains a character with
property `P` as soon as every word of `s` does. -/
theorem rmatch_cat_right {r s : Regex} {w : List Char} (P : Char → Prop)
    (hs : ∀ w2, RMatch s w2 → ∃ c ∈ w2, P c) (h : RMatch (.cat r s) w) :
    ∃ c ∈ w, P c := by
  cases h with
  | catM h1 h2 =>
    obtain ⟨c, hc, hP⟩ := hs _ h2
    exact ⟨c, List.mem_append_right _ hc, hP⟩

theorem rmatch_cls_ex {p : Char → Bool} {w : List Char} (P : Char → Prop)
    (himp : ∀ c, p c = true → P c) (h : RMatch (.cls p) w) : ∃ c ∈ w, P c := by
  cases h with
  | cls hp => exact ⟨_, by simp, himp _ hp⟩

/-- Every word matched by the line-52 pattern `\brm\s+-[rR]f\s+[~/.]`
contains one of the characters `~`, `/`, `.`. -/
theorem rm_pat_target_chars {w : List Char} (h : RMatch rm_pat_target w) :
    ∃ c ∈ w, c = '~' ∨ c = '/' ∨ c = '.' := by
  refine rmatch_cat_right _ (fun w1 h1 => ?_) h
  refine rmatch_cat_right _ (fun w2 h2 => ?_) h1
  refine rmatch_cat_right _ (fun w3 h3 => ?_) h2
  refine rmatch_cat_right _ (fun w4 h4 => ?_) h3
  refine rmatch_cat_right _ (fun w5 h5 => ?_) h4
  refine rmatch_cat_right _ (fun w6 h6 => ?_) h5
  refine rmatch_cls_ex _ (fun c hc => ?_) h6
  simp only [tsdCls] at hc
  simpa [or_assoc] using hc

/-! ### Substring lemmas -/

theorem subList_head_mem {a : Char} {as l : List Char}
    (h : subList (a :: as) l = true) : a ∈ l := by
  induction l with
  | nil => simp [subList, listLeads] at h
  | cons c cs ih =>
    simp only [subList, Bool.or_eq_true] at h
    rcases h with h | h
    · simp only [listLeads, Bool.and_eq_true, beq_iff_eq] at h
      exact h.1 ▸ List.mem_cons_self c cs
    · exact List.mem_cons_of_mem c (ih h)

theorem subList_singleton {a : Char} {l : List Char} :
    subList [a] l = true ↔ a ∈ l := by
  constructor
  · exact subList_head_mem
  · intro h
    induction l with
    | nil => cases h
    | cons c cs ih =>
      simp only [subList, Bool.or_eq_true]
      rcases List.mem_cons.mp h with rfl | h
      · left; simp [listLeads]
      · right; exact ih h

theorem subList_hay_ne_nil {a : Char} {as l : List Char}
    (h : subList (a :: as) l = true) : l ≠ [] := by
  intro hl
  rw [hl] at h
  simp [subList, listLeads] at h

/-! ### Normalization lemmas -/

theorem pySplitAux_no_space :
    ∀ (l : List Char), (∀ c ∈ l, isPySpace c = false) →
      ∀ acc : List Char, acc ≠ [] → pySplitAux l acc = [acc.reverse ++ l] := by
  intro l
  induction l with
  | nil =>
    intro _ acc hacc
    simp only [pySplitAux, List.isEmpty_eq_true]
    rw [if_neg hacc]
    simp
  | cons c cs ih =>
    intro h acc hacc
    have hc : isPySpace c = false := h c (List.mem_cons_self c cs)
    simp only [pySplitAux, hc, Bool.false_eq_true, if_false]
    rw [ih (fun x hx => h x (List.mem_cons_of_mem c hx)) (c :: acc) (by simp)]
    simp

theorem pySplitAux_word (c : Char) (cs : List Char)
    (h : ∀ x ∈ c :: cs, isPySpace x = false) :
    pySplitAux (c :: cs) [] = [c :: cs] := by
  have hc : isPySpace c = false := h c (List.mem_cons_self c cs)
  simp only [pySplitAux, hc, Bool.false_eq_true, if_false]
  rw [pySplitAux_no_space cs (fun x hx => h x (List.mem_cons_of_mem c hx)) [c] (by simp)]
  simp

/-- On a command `rm -rf <p>` whose target `p` is nonempty and contains no
whitespace, the guard's whitespace normalization is the identity. -/
theorem normalizeWs_rm_rf (p : String) (h0 : p.data ≠ [])
    (h1 : ∀ c ∈ p.data, isPySpace c = false) :
    normalizeWs ("rm -rf " ++ p).data = ("rm -rf " ++ p).data := by
  obtain ⟨c, cs, hcs⟩ : ∃ c cs, p.data = c :: cs := by
    cases hp : p.data with
    | nil => exact absurd hp h0
    | cons c cs => exact ⟨c, cs, rfl⟩
  have hsplit : pySplitAux ("rm -rf " ++ p).data [] =
      ['r', 'm'] :: ['-', 'r', 'f'] :: pySplitAux p.data [] := rfl
  show joinSp (pySplitAux ("rm -rf " ++ p).data []) = ("rm -rf " ++ p).data
  rw [hsplit, hcs, pySplitAux_word c cs (hcs ▸ h1)]
  show 'r' :: 'm' :: ' ' :: '-' :: 'r' :: 'f' :: ' ' :: (c :: cs) = ("rm -rf " ++ p).data
  rw [show ("rm -rf " ++ p).data = "rm -rf ".data ++ p.data from rfl, hcs]
  rfl

/-! ### Helper lemmas about the guard -/

/-- If the rm rule predicate holds of the command, a `Bash` invocation is
blocked whatever the `.env` rule decides. -/
theorem evaluate_bash_blocked (sid fp cmd : String)
    (hd : is_dangerous_rm_command cmd = true) :
    (evaluate (InvocationRecord.mk sid "Bash" fp cmd)).isBlocked = true := by
  unfold evaluate
  cases he : is_env_file_access "Bash" fp cmd with
  | true => simp [he, Decision.isBlocked]
  | false => simp [he, hd, Decision.isBlocked]

theorem foldl_appendLog_valid (rs : List InvocationRecord) :
    ∀ acc, List.foldl appendLog (.valid acc) rs = .valid (acc ++ rs) := by
  induction rs with
  | nil => intro acc; simp
  | cons r rs ih =>
    intro acc
    show List.foldl appendLog (appendLog (.valid acc) r) rs = _
    rw [show appendLog (.valid acc) r = .valid (acc ++ [r]) from rfl, ih]
    simp

/-! ### The claims -/

/-- C1: for every shell-execute invocation whose command is
`rm -rf <dangerous-path-token>` with `<dangerous-path-token>` one of the
guard's dangerous-path tokens (`/`, `/*`, `~`, `$HOME`, `..`, `*`, `.`),
`evaluate` returns BLOCK — in particular `rm -rf /`, `rm -rf ~` and
`rm -rf .` are blocked. -/
theorem c1_dangerous_rm_blocked (sid fp t : String) (ht : t ∈ dangerous_paths) :
    (evaluate (InvocationRecord.mk sid "Bash" fp ("rm -rf " ++ t))).isBlocked = true := by
  fin_cases ht
  · exact evaluate_bash_blocked sid fp _ (by decide)
  · exact evaluate_bash_blocked sid fp _ (by decide)
  · exact evaluate_bash_blocked sid fp _ (by decide)
  · exact evaluate_bash_blocked sid fp _ (by decide)
  · exact evaluate_bash_blocked sid fp _ (by decide)
  · exact evaluate_bash_blocked sid fp _ (by decide)
  · exact evaluate_bash_blocked sid fp _ (by decide)

theorem c1_witness :
    ("/" : String) ∈ dangerous_paths ∧
      (evaluate (InvocationRecord.mk "s" "Bash" "" ("rm -rf " ++ "/"))).isBlocked = true :=
  ⟨by decide, c1_dangerous_rm_blocked "s" "" "/" (by decide)⟩

/-- C4: a file-edit invocation whose `file_path` contains `.env` but neither
`.env.sample` nor `.env.example` is blocked by the `.env` rule, and file-edit
invocations on `.env.sample` / `.env.example` are allowed. -/
theorem c4_env_edit_blocked :
    (∀ sid fp cmd : String, strContains fp ".env" = true →
      strContains fp ".env.sample" = false → strContains fp ".env.example" = false →
      evaluate (InvocationRecord.mk sid "Edit" fp cmd) = .block env_block_msg) ∧
    evaluate (InvocationRecord.mk "s" "Edit" ".env.sample" "") = .allow ∧
    evaluate (InvocationRecord.mk "s" "Edit" ".env.example" "") = .allow := by
  refine ⟨fun sid fp cmd h1 h2 h3 => ?_, by decide, by decide⟩
  have hne : fp.data ≠ [] := by
    have h1' : subList ('.' :: ['e', 'n', 'v']) fp.data = true := h1
    exact subList_hay_ne_nil h1'
  have hempty : fp.data.isEmpty = false := by
    cases hfe : fp.data with
    | nil => exact absurd hfe hne
    | cons a as => rfl
  have henv : is_env_file_access "Edit" fp cmd = true := by
    unfold is_env_file_access
    rw [show (["Read", "Edit", "MultiEdit", "Write", "Bash"].contains "Edit") = true from rfl]
    simp [hempty, h1, h2, h3]
  simp [evaluate, henv]

theorem c4_witness :
    strContains ".env" ".env" = true ∧
      evaluate (InvocationRecord.mk "s" "Edit" ".env" "x") = .block env_block_msg :=
  ⟨by decide, c4_env_edit_blocked.1 "s" ".env" "x" (by decide) (by decide) (by decide)⟩

/-- C5: for every well-formed (parseable) invocation record, the pre-stage
hook appends the record to the session's pre-stage log whatever the decision
turns out to be — the resulting log file content is the old sequence plus the
record, identically for ALLOW and BLOCK outcomes. -/
theorem c5_always_logged (d : InvocationRecord) (fs : FS) :
    (pre_tool_use_main (.parsed d) fs).fs .pre d.sessionId =
      .valid (loadLogs (fs .pre d.sessionId) ++ [d]) := by
  cases hd : evaluate d <;>
    simp [pre_tool_use_main, hd, log_tool_call, updFS, appendLog]

/-- C6: appending N distinct records to the same (session, stage) log file,
starting from no file, yields a file that deserializes to exactly those N
records in call order. -/
theorem c6_append_order (rs : List InvocationRecord) (hnd : rs.Nodup) :
    loadLogs (List.foldl appendLog .absent rs) = rs := by
  cases rs with
  | nil => rfl
  | cons r rs =>
    show loadLogs (List.foldl appendLog (appendLog .absent r) rs) = r :: rs
    rw [show appendLog .absent r = .valid [r] from rfl, foldl_appendLog_valid]
    simp [loadLogs]

theorem c6_witness :
    ([InvocationRecord.mk "s" "Bash" "" "ls",
      InvocationRecord.mk "s" "Bash" "" "pwd"] : List InvocationRecord).Nodup ∧
    loadLogs (List.foldl appendLog .absent
        [InvocationRecord.mk "s" "Bash" "" "ls", InvocationRecord.mk "s" "Bash" "" "pwd"]) =
      [InvocationRecord.mk "s" "Bash" "" "ls", InvocationRecord.mk "s" "Bash" "" "pwd"] :=
  ⟨by decide, c6_append_order _ (by decide)⟩

/-- C7: the claim quantifies over EVERY existing log file whose content
fails to parse as the expected sequence, but the code recovers only from
the `JSONDecodeError`/`IOError` class.  At the failing input — an existing
log file holding `{}` (valid JSON that is not an array) — `json.load`
succeeds, the except clause does not fire, and `logs.append(data)` raises an
uncaught `AttributeError` in both hooks: the next append does NOT succeed,
the process exits with status 1, and the file is not rewritten.  The theorem
evaluates the full content model at this input, contrasting it with the
`JSONDecodeError`/`IOError` class, where the append does rewrite the file to
exactly the new record. -/
theorem c7_nonarray_append_crashes :
    appendLogFull .corrupt (InvocationRecord.mk "s" "" "" "") =
      some (.valid [InvocationRecord.mk "s" "" "" ""]) ∧
    appendLogFull .nonArray (InvocationRecord.mk "s" "" "" "") = none ∧
    (post_tool_use_main_full (.parsed (InvocationRecord.mk "s" "" "" "")) nonArrayFSFull).1 = 1 ∧
    (post_tool_use_main_full (.parsed (InvocationRecord.mk "s" "" "" "")) nonArrayFSFull).2 =
      nonArrayFSFull :=
  ⟨rfl, rfl, rfl, rfl⟩

/-- C8: on a non-parseable input payload both hooks exit 0 and leave every
log file untouched — no record is appended and no rule is evaluated. -/
theorem c8_malformed_noop (fs : FS) :
    pre_tool_use_main .malformed fs = ⟨0, fs, []⟩ ∧
    post_tool_use_main .malformed fs = (0, fs) :=
  ⟨rfl, rfl⟩

/-- C9: the claim says the post hook exits 0 on EVERY input payload; the code
does not.  At the failing input — a payload that is valid JSON but not a JSON
object, such as `42` — `data.get("sessionId", "unknown")` raises an uncaught
`AttributeError` and the interpreter exits with status 1 (not 0), writing
nothing.  This contradicts the hook's own docstring
"Always succeeds (exit 0) to not block workflow". -/
theorem c9_nonobject_exit_one :
    (post_tool_use_main .nonObject emptyFS).1 = 1 ∧
    (post_tool_use_main .nonObject emptyFS).1 ≠ 0 ∧
    (post_tool_use_main .nonObject emptyFS).2 = emptyFS :=
  ⟨rfl, by decide, rfl⟩

/-- C10: the guard's decision (including the reason text) depends only on the
tool name and the parameters; two well-formed records agreeing on tool,
`file_path` and `command` but differing in `sessionId` get the same
decision. -/
theorem c10_sid_irrelevant (d1 d2 : InvocationRecord) (ht : d1.tool = d2.tool)
    (hf : d1.file_path = d2.file_path) (hc : d1.command = d2.command)
    (hs : d1.sessionId ≠ d2.sessionId) : evaluate d1 = evaluate d2 := by
  obtain ⟨s1, t1, f1, c1⟩ := d1
  obtain ⟨s2, t2, f2, c2⟩ := d2
  dsimp only at ht hf hc
  subst ht hf hc
  rfl

theorem c10_witness :
    ("a" : String) ≠ "b" ∧
      evaluate (InvocationRecord.mk "a" "Bash" "" "ls") =
        evaluate (InvocationRecord.mk "b" "Bash" "" "ls") :=
  ⟨by decide, c10_sid_irrelevant _ _ rfl rfl rfl (by decide)⟩

/-- C2 counterexample: the spec's own example `rm -rf build/` of an
"ordinary relative path" is in fact BLOCKED, because the dangerous-path check
is a substring co-occurrence check and `/` occurs in `build/`. -/
theorem c2_counterexample :
    evaluate (InvocationRecord.mk "s" "Bash" "" "rm -rf build/") =
      .block (rm_block_msg "rm -rf build/") := by decide

/-- C2 (amended): every shell-execute invocation whose `file_path` parameter
(defaulting to empty) does not contain the substring `.env` and whose
command is `rm -rf <p>` with `<p>` a nonempty whitespace-free word such that
none of the dangerous-path tokens (`/`, `/*`, `~`, `$HOME`, `..`, `*`, `.`)
occurs as a substring anywhere in the command text is allowed
(e.g. `rm -rf build`). -/
theorem c2_ordinary_rm_allowed (sid fp p : String)
    (hfp : strContains fp ".env" = false) (h0 : p ≠ "")
    (h1 : ∀ c ∈ p.data, isPySpace c = false)
    (h2 : ∀ t ∈ dangerous_paths, strContains ("rm -rf " ++ p) t = false) :
    evaluate (InvocationRecord.mk sid "Bash" fp ("rm -rf " ++ p)) = .allow := by
  have hpd : p.data ≠ [] := by
    intro hd
    exact h0 (String.ext (hd.trans rfl))
  have hnorm := normalizeWs_rm_rf p hpd h1
  have hslash : ('/' : Char) ∉ ("rm -rf " ++ p).data := by
    intro hm
    have h := h2 "/" (by decide)
    rw [show strContains ("rm -rf " ++ p) "/" = subList ['/'] ("rm -rf " ++ p).data
      from rfl] at h
    rw [subList_singleton.mpr hm] at h
    cases h
  have htilde : ('~' : Char) ∉ ("rm -rf " ++ p).data := by
    intro hm
    have h := h2 "~" (by decide)
    rw [show strContains ("rm -rf " ++ p) "~" = subList ['~'] ("rm -rf " ++ p).data
      from rfl] at h
    rw [subList_singleton.mpr hm] at h
    cases h
  have hdot : ('.' : Char) ∉ ("rm -rf " ++ p).data := by
    intro hm
    have h := h2 "." (by decide)
    rw [show strContains ("rm -rf " ++ p) "." = subList ['.'] ("rm -rf " ++ p).data
      from rfl] at h
    rw [subList_singleton.mpr hm] at h
    cases h
  have hdotenv : strContains ("rm -rf " ++ p) ".env" = false := by
    cases hc : strContains ("rm -rf " ++ p) ".env" with
    | false => rfl
    | true =>
      have hc2 : subList ('.' :: ['e', 'n', 'v']) ("rm -rf " ++ p).data = true := hc
      exact absurd (subList_head_mem hc2) hdot
  have henv : is_env_file_access "Bash" fp ("rm -rf " ++ p) = false := by
    unfold is_env_file_access
    rw [show (["Read", "Edit", "MultiEdit", "Write", "Bash"].contains "Bash") = true from rfl]
    simp [hfp, hdotenv]
  have htok : (dangerous_paths.any fun t => subList t.data ("rm -rf " ++ p).data) = false := by
    rw [List.any_eq_false]
    intro t ht
    simp only [Bool.not_eq_true]
    exact h2 t ht
  have hsw : searchWB rm_pat_target ("rm -rf " ++ p).data = false := by
    cases hq : searchWB rm_pat_target ("rm -rf " ++ p).data with
    | false => rfl
    | true =>
      exfalso
      obtain ⟨w, hm, hsub⟩ := searchWBAux_sound _ _ _ hq
      obtain ⟨c, hcw, hc⟩ := rm_pat_target_chars hm
      rcases hc with rfl | rfl | rfl
      · exact htilde (hsub _ hcw)
      · exact hslash (hsub _ hcw)
      · exact hdot (hsub _ hcw)
  have hrm : is_dangerous_rm_command ("rm -rf " ++ p) = false := by
    unfold is_dangerous_rm_command
    simp only [hnorm]
    rw [htok, hsw]
    simp
  simp [evaluate, henv, hrm]

theorem c2_witness :
    ("build" : String) ≠ "" ∧
      evaluate (InvocationRecord.mk "s" "Bash" "" ("rm -rf " ++ "build")) = .allow :=
  ⟨by decide,
   c2_ordinary_rm_allowed "s" "" "build" (by decide) (by decide) (by decide) (by decide)⟩

/-- C3 counterexample: a Bash invocation whose parameters carry
`file_path = ".env"` fires the sensitive-path rule through the file-path
branch even though its command (`echo hello`) contains no `.env` substring
and matches no direct-access idiom — refuting the claimed "if and only if"
over all shell-execute invocations. -/
theorem c3_counterexample :
    is_env_file_access "Bash" ".env" "echo hello" = true ∧
    strContains "echo hello" ".env" = false := by decide

/-- C3 (amended): for every Bash invocation whose `file_path` parameter
(defaulting to empty) does not contain `.env`, the sensitive-path rule fires
iff the command contains `.env`, contains neither `.env.sample` nor
`.env.example`, and matches at least one of the five direct-access idiom
patterns; in particular `cat .env` is blocked while `cat .env.sample` and
`echo hello` are allowed. -/
theorem c3_env_bash_iff :
    (∀ fp cmd : String, strContains fp ".env" = false →
      (is_env_file_access "Bash" fp cmd = true ↔
        strContains cmd ".env" = true ∧ strContains cmd ".env.sample" = false ∧
        strContains cmd ".env.example" = false ∧
        (env_patterns.any fun p => reSearch p cmd.data) = true)) ∧
    evaluate (InvocationRecord.mk "s" "Bash" "" "cat .env") = .block env_block_msg ∧
    evaluate (InvocationRecord.mk "s" "Bash" "" "cat .env.sample") = .allow ∧
    evaluate (InvocationRecord.mk "s" "Bash" "" "echo hello") = .allow := by
  refine ⟨fun fp cmd hfp => ?_, by decide, by decide, by decide⟩
  unfold is_env_file_access
  rw [show (["Read", "Edit", "MultiEdit", "Write", "Bash"].contains "Bash") = true from rfl]
  cases h1 : strContains cmd ".env" with
  | false => simp [hfp, h1]
  | true =>
    cases h2 : strContains cmd ".env.sample" with
    | true => simp [hfp, h1, h2]
    | false =>
      cases h3 : strContains cmd ".env.example" with
      | true => simp [hfp, h1, h2, h3]
      | false => simp [hfp, h1, h2, h3]

theorem c3_witness : is_env_file_access "Bash" "" "cat .env" = true :=
  (c3_env_bash_iff.1 "" "cat .env" (by decide)).mpr (by decide)
